import Mathlib

/-!
Verification development for the Web_Launcher client state store
(`src/store/useWebsiteStore.ts`): the Zustand store holding the signed-in
user's bookmark entries (`Website`) and groups (`WebsiteGroup`), its
optimistic-update/rollback operations, its derived views, and the
Firestore snapshot reconciliation fold.

Timestamps: the application stores JavaScript `Date` values, which are
milliseconds since the Unix epoch; we model them as `Nat` (every date the
app creates comes from `new Date()`, hence non-negative).  The Firestore
wire representation is an ISO-8601 string produced by `Date.toISOString()`
and read back with `new Date(string)`; we model the ISO-8601 string by its
seven numeric fields (year, month, day, hour, minute, second, millisecond),
computed with the standard proleptic-Gregorian civil-from-days conversion
(the algorithm used by JavaScript engines), since the fixed-width decimal
rendering of those fields is injective.
-/

/-! ### Civil calendar conversion (model of `Date.toISOString` / `new Date`) -/

def yoeOfDoe (doe : Nat) : Nat :=
  (doe - doe / 1460 + doe / 36524 - doe / 146096) / 365

def doyOfDoe (doe : Nat) : Nat :=
  doe - (365 * yoeOfDoe doe + yoeOfDoe doe / 4 - yoeOfDoe doe / 100)

def mpOfDoy (doy : Nat) : Nat := (5 * doy + 2) / 153

def civilOfEraDoe (era doe : Nat) : Nat × Nat × Nat :=
  let yoe := yoeOfDoe doe
  let y := yoe + era * 400
  let doy := doyOfDoe doe
  let mp := mpOfDoy doy
  let d := doy - (153 * mp + 2) / 5 + 1
  let m := if mp < 10 then mp + 3 else mp - 9
  (if m ≤ 2 then y + 1 else y, m, d)

/-- Day number (days since 1970-01-01) to civil date (year, month, day). -/
def civilFromDays (z : Nat) : Nat × Nat × Nat :=
  civilOfEraDoe ((z + 719468) / 146097) ((z + 719468) % 146097)

/-- Civil date (year, month, day) back to the day number since 1970-01-01. -/
def daysFromCivil (y m d : Nat) : Nat :=
  let y2 := if m ≤ 2 then y - 1 else y
  let era := y2 / 400
  let yoe := y2 % 400
  let mp := if 2 < m then m - 3 else m + 9
  let doy := (153 * mp + 2) / 5 + d - 1
  let doe := yoe * 365 + yoe / 4 - yoe / 100 + doy
  era * 146097 + doe - 719468

/-- The leap-structure core of the year-of-era extraction, stated for one
century (`s` is the day within the century, `c` a small correction). -/
theorem century_core (s c : Nat) (hs : s < 36524) (hc : c ≤ 96) :
    365 * ((s - (s + c) / 1460) / 365) + ((s - (s + c) / 1460) / 365) / 4 ≤ s ∧
    s - (365 * ((s - (s + c) / 1460) / 365) + ((s - (s + c) / 1460) / 365) / 4) ≤ 365 ∧
    (s - (s + c) / 1460) / 365 ≤ 99 := by
  omega

theorem doe_facts (doe : Nat) (h : doe < 146097) :
    365 * yoeOfDoe doe + yoeOfDoe doe / 4 - yoeOfDoe doe / 100 ≤ doe ∧
    doe - (365 * yoeOfDoe doe + yoeOfDoe doe / 4 - yoeOfDoe doe / 100) ≤ 365 ∧
    yoeOfDoe doe ≤ 399 := by
  by_cases hb : doe = 146096
  · subst hb; decide
  have h1 : doe < 146096 := by omega
  set q := doe / 36524 with hq
  set s := doe % 36524 with hs
  have hqs : doe = 36524 * q + s ∧ s < 36524 ∧ q ≤ 4 := by
    refine ⟨?_, ?_, ?_⟩ <;> omega
  have hA : doe / 1460 = 25 * q + (s + 24 * q) / 1460 := by omega
  have hnum : doe - doe / 1460 + doe / 36524 - doe / 146096
      = 36500 * q + (s - (s + 24 * q) / 1460) := by omega
  have hcore := century_core s (24 * q) hqs.2.1 (by omega)
  have hyoe : yoeOfDoe doe = 100 * q + (s - (s + 24 * q) / 1460) / 365 := by
    rw [yoeOfDoe, hnum]
    omega
  rw [hyoe]
  omega

theorem doy_facts (doe : Nat) (h : doe < 146097) :
    doyOfDoe doe ≤ 365 ∧
    yoeOfDoe doe * 365 + yoeOfDoe doe / 4 - yoeOfDoe doe / 100 + doyOfDoe doe = doe := by
  have := doe_facts doe h
  unfold doyOfDoe
  omega

theorem mp_facts (doy : Nat) (h : doy ≤ 365) :
    (153 * mpOfDoy doy + 2) / 5 ≤ doy ∧ doy - (153 * mpOfDoy doy + 2) / 5 ≤ 30 ∧
    mpOfDoy doy ≤ 11 := by
  unfold mpOfDoy
  omega

theorem daysFromCivil_civilOfEraDoe (era doe : Nat) (h : doe < 146097)
    (h2 : 719468 ≤ era * 146097 + doe) :
    daysFromCivil (civilOfEraDoe era doe).1 (civilOfEraDoe era doe).2.1
      (civilOfEraDoe era doe).2.2 = era * 146097 + doe - 719468 := by
  have hy := doe_facts doe h
  have hd := doy_facts doe h
  have hm := mp_facts (doyOfDoe doe) hd.1
  simp only [civilOfEraDoe, daysFromCivil]
  rcases Nat.lt_or_ge (mpOfDoy (doyOfDoe doe)) 10 with hc | hc
  · rw [if_pos hc]
    simp only [if_neg (show ¬ (mpOfDoy (doyOfDoe doe) + 3 ≤ 2) by omega)]
    rw [if_pos (show 2 < mpOfDoy (doyOfDoe doe) + 3 by omega), Nat.add_sub_cancel]
    have hA : (yoeOfDoe doe + era * 400) / 400 = era := by omega
    have hB : (yoeOfDoe doe + era * 400) % 400 = yoeOfDoe doe := by omega
    rw [hA, hB]
    omega
  · rw [if_neg (show ¬ mpOfDoy (doyOfDoe doe) < 10 by omega)]
    simp only [if_pos (show mpOfDoy (doyOfDoe doe) - 9 ≤ 2 by omega)]
    rw [if_neg (show ¬ 2 < mpOfDoy (doyOfDoe doe) - 9 by omega),
      Nat.sub_add_cancel (show 9 ≤ mpOfDoy (doyOfDoe doe) by omega),
      Nat.add_sub_cancel]
    have hA : (yoeOfDoe doe + era * 400) / 400 = era := by omega
    have hB : (yoeOfDoe doe + era * 400) % 400 = yoeOfDoe doe := by omega
    rw [hA, hB]
    omega

theorem daysFromCivil_civilFromDays (z : Nat) :
    daysFromCivil (civilFromDays z).1 (civilFromDays z).2.1 (civilFromDays z).2.2 = z := by
  unfold civilFromDays
  rw [daysFromCivil_civilOfEraDoe _ _ (Nat.mod_lt _ (by omega)) (by omega)]
  omega

/-- The wire form of a timestamp: the numeric fields of the ISO-8601 string
`YYYY-MM-DDTHH:MM:SS.sssZ` written by `Date.toISOString()`. -/
structure ISODate where
  year : Nat
  month : Nat
  day : Nat
  hour : Nat
  minute : Nat
  second : Nat
  millisecond : Nat
deriving DecidableEq

/-- Model of `Date.toISOString()` on a millisecond timestamp. -/
def isoOfMs (t : Nat) : ISODate :=
  let c := civilFromDays (t / 86400000)
  { year := c.1, month := c.2.1, day := c.2.2,
    hour := t / 3600000 % 24, minute := t / 60000 % 60,
    second := t / 1000 % 60, millisecond := t % 1000 }

/-- Model of `new Date(isoString).getTime()`. -/
def msOfISO (x : ISODate) : Nat :=
  daysFromCivil x.year x.month x.day * 86400000
    + x.hour * 3600000 + x.minute * 60000 + x.second * 1000 + x.millisecond

theorem msOfISO_isoOfMs (t : Nat) : msOfISO (isoOfMs t) = t := by
  have h := daysFromCivil_civilFromDays (t / 86400000)
  simp only [isoOfMs, msOfISO]
  rw [h]
  omega

/-! ### Data model (`Website`, `WebsiteGroup`) and Firestore wire types -/

/-- In-memory bookmark entry (interface `Website` in the source). -/
structure Website where
  id : String
  title : String
  url : String
  description : Option String
  preview : Option String
  favicon : Option String
  tags : List String
  visits : Nat
  lastVisit : Option Nat
  createdAt : Nat
  userId : String
  deleted : Option Bool
  deletedAt : Option Nat
deriving DecidableEq

/-- In-memory group (interface `WebsiteGroup` in the source). -/
structure WebsiteGroup where
  id : String
  name : String
  description : Option String
  isExpanded : Option Bool
  createdAt : Nat
  userId : String
  deleted : Option Bool
  deletedAt : Option Nat
deriving DecidableEq

/-- Wire shape of a website document (interface `FirestoreWebsite`):
dates are ISO-8601 strings. -/
structure FirestoreWebsite where
  id : String
  title : String
  url : String
  description : Option String
  preview : Option String
  favicon : Option String
  tags : List String
  visits : Nat
  lastVisit : Option ISODate
  createdAt : ISODate
  userId : String
  deleted : Option Bool
  deletedAt : Option ISODate
deriving DecidableEq

/-- Wire shape of a group document (interface `FirestoreGroup`). -/
structure FirestoreGroup where
  id : String
  name : String
  description : Option String
  isExpanded : Option Bool
  createdAt : ISODate
  userId : String
  deleted : Option Bool
  deletedAt : Option ISODate
deriving DecidableEq

/-- Source `fromFirestoreWebsite`: spread the document, parsing the
ISO-string dates back to in-memory dates (`undefined` stays `undefined`). -/
def fromFirestoreWebsite (data : FirestoreWebsite) : Website :=
  { id := data.id, title := data.title, url := data.url,
    description := data.description, preview := data.preview,
    favicon := data.favicon, tags := data.tags, visits := data.visits,
    lastVisit := data.lastVisit.map msOfISO,
    createdAt := msOfISO data.createdAt,
    userId := data.userId, deleted := data.deleted,
    deletedAt := data.deletedAt.map msOfISO }

/-- Source `toFirestoreWebsite`: spread the entry, rendering the
dates as ISO strings (`undefined` stays `undefined`). -/
def toFirestoreWebsite (website : Website) : FirestoreWebsite :=
  { id := website.id, title := website.title, url := website.url,
    description := website.description, preview := website.preview,
    favicon := website.favicon, tags := website.tags, visits := website.visits,
    lastVisit := website.lastVisit.map isoOfMs,
    createdAt := isoOfMs website.createdAt,
    userId := website.userId, deleted := website.deleted,
    deletedAt := website.deletedAt.map isoOfMs }

/-- Source `toFirestoreGroup`. -/
def toFirestoreGroup (group : WebsiteGroup) : FirestoreGroup :=
  { id := group.id, name := group.name, description := group.description,
    isExpanded := group.isExpanded,
    createdAt := isoOfMs group.createdAt,
    userId := group.userId, deleted := group.deleted,
    deletedAt := group.deletedAt.map isoOfMs }

/-! ### Store state and remote-write effects -/

/-- The slice of `WebsiteState` the operations act on. -/
structure StoreState where
  websites : List Website
  groups : List WebsiteGroup
  currentUser : Option String
  isLoading : Bool
deriving DecidableEq

/-- Payload of `editWebsite`: `Partial` of `Website` minus `id`, `userId`,
`createdAt` (those fields are not even present in the update type). A field
that is `none` is absent from the update object. -/
structure WebsiteUpdates where
  title : Option String
  url : Option String
  description : Option String
  preview : Option String
  favicon : Option String
  tags : Option (List String)
  visits : Option Nat
  lastVisit : Option Nat
  deleted : Option Bool
  deletedAt : Option Nat
deriving DecidableEq

/-- The update object `editWebsite` actually sends to Firestore: the same
fields with dates rendered to ISO strings; note there are no `id`, `userId`,
`createdAt` components at all (mirroring the `Omit` type plus the explicit
`delete` statements), and `visits` is always stripped. -/
structure WebsiteUpdatePayload where
  title : Option String
  url : Option String
  description : Option String
  preview : Option String
  favicon : Option String
  tags : Option (List String)
  visits : Option Nat
  lastVisit : Option ISODate
  deleted : Option Bool
  deletedAt : Option ISODate
deriving DecidableEq

/-- Payload of `updateGroup`. -/
structure GroupUpdates where
  name : Option String
  description : Option String
  isExpanded : Option Bool
  deleted : Option Bool
  deletedAt : Option Nat
deriving DecidableEq

/-- The update object `updateGroup` sends to Firestore. -/
structure GroupUpdatePayload where
  name : Option String
  description : Option String
  isExpanded : Option Bool
  deleted : Option Bool
  deletedAt : Option ISODate
deriving DecidableEq

/-- One attempted Firestore write, with exactly the fields the source sends. -/
inductive RemoteWrite where
  | setWebsiteDoc : String → FirestoreWebsite → RemoteWrite
  | updateVisitFields : String → String → Nat → Option ISODate → RemoteWrite
  | softDeleteWebsite : String → String → ISODate → RemoteWrite
  | updateWebsiteFields : String → String → WebsiteUpdatePayload → RemoteWrite
  | setGroupDoc : String → FirestoreGroup → RemoteWrite
  | updateGroupFields : String → String → GroupUpdatePayload → RemoteWrite
  | softDeleteGroup : String → String → ISODate → RemoteWrite
  | updateGroupExpansion : String → String → Bool → RemoteWrite
deriving DecidableEq

/-- Model of `Array.prototype.findIndex` paired with the element found. -/
def findIdxElem (p : α → Bool) : List α → Option (Nat × α)
  | [] => none
  | a :: l => if p a then some (0, a) else (findIdxElem p l).map (fun x => (x.1 + 1, x.2))

/-- The ascending-by-creation-time sort
`sort((a, b) => a.createdAt.getTime() - b.createdAt.getTime())`
(stable, as required of `Array.prototype.sort` since ES2019). -/
def sortByCreatedAt (ws : List Website) : List Website :=
  ws.mergeSort (fun a b => decide (a.createdAt ≤ b.createdAt))

def sortGroupsByCreatedAt (gs : List WebsiteGroup) : List WebsiteGroup :=
  gs.mergeSort (fun a b => decide (a.createdAt ≤ b.createdAt))

/-! ### Store operations (optimistic update, remote write, rollback)

Each operation takes the pre-state, the inputs the source reads from the
environment (`new Date()` as `now`, `crypto.randomUUID()` as `freshId`) and
a `remoteOk` flag saying whether the awaited Firestore write succeeded.  It
returns the final state together with the list of attempted remote writes
(the write is attempted whether or not it succeeds; an empty list means the
operation returned before writing). -/

/-- Source `addVisit`: increment the visit counter and stamp
`lastVisit` optimistically, send only `visits` and `lastVisit` to
Firestore, and on failure map the entry back to its prior snapshot. -/
def addVisit (s : StoreState) (websiteId : String) (now : Nat) (remoteOk : Bool) :
    StoreState × List RemoteWrite :=
  match s.currentUser with
  | none => (s, [])
  | some currentUser =>
    match findIdxElem (fun w => w.id == websiteId && w.userId == currentUser) s.websites with
    | none => (s, [])
    | some (i, websiteToUpdate) =>
      let updatedWebsite : Website :=
        { websiteToUpdate with visits := websiteToUpdate.visits + 1, lastVisit := some now }
      let optimistic := s.websites.set i updatedWebsite
      let writes := [RemoteWrite.updateVisitFields currentUser websiteId
        updatedWebsite.visits (updatedWebsite.lastVisit.map isoOfMs)]
      if remoteOk then
        ({ s with websites := optimistic }, writes)
      else
        ({ s with websites :=
            optimistic.map (fun w => if w.id == websiteId then websiteToUpdate else w) }, writes)

/-- Payload of `addWebsite` (`AddWebsitePayload` in the source). -/
structure AddWebsitePayload where
  title : String
  url : String
  description : Option String
  preview : Option String
  favicon : Option String
  tags : List String
deriving DecidableEq

/-- The new entry `addWebsite` constructs: fresh id, zero visits, creation
time now, owned by the current user, optional text fields defaulted to
the empty string. -/
def mkNewWebsite (websiteData : AddWebsitePayload) (freshId : String) (now : Nat)
    (currentUser : String) : Website :=
  { id := freshId, title := websiteData.title, url := websiteData.url,
    tags := websiteData.tags, visits := 0, createdAt := now, userId := currentUser,
    description := some (websiteData.description.getD ""),
    preview := some (websiteData.preview.getD ""),
    favicon := some (websiteData.favicon.getD ""),
    lastVisit := none, deleted := none, deletedAt := none }

/-- Source `addWebsite`: append the new entry optimistically,
`setDoc` it, and on failure filter it back out by its id. -/
def addWebsite (s : StoreState) (websiteData : AddWebsitePayload) (freshId : String)
    (now : Nat) (remoteOk : Bool) : StoreState × List RemoteWrite :=
  match s.currentUser with
  | none => (s, [])
  | some currentUser =>
    let newWebsite := mkNewWebsite websiteData freshId now currentUser
    let optimistic := s.websites ++ [newWebsite]
    let writes := [RemoteWrite.setWebsiteDoc currentUser (toFirestoreWebsite newWebsite)]
    if remoteOk then
      ({ s with websites := optimistic }, writes)
    else
      ({ s with websites := optimistic.filter (fun w => !(w.id == newWebsite.id)) }, writes)

/-- Source `removeWebsite`: filter the entry out optimistically,
send a soft delete (`deleted` flag plus `deletedAt` stamp), and on failure
re-insert it and re-sort by creation time. -/
def removeWebsite (s : StoreState) (websiteId : String) (now : Nat) (remoteOk : Bool) :
    StoreState × List RemoteWrite :=
  match s.currentUser with
  | none => (s, [])
  | some currentUser =>
    match s.websites.find? (fun w => w.id == websiteId && w.userId == currentUser) with
    | none => (s, [])
    | some websiteToRemove =>
      let optimistic := s.websites.filter (fun w => !(w.id == websiteId))
      let writes := [RemoteWrite.softDeleteWebsite currentUser websiteId (isoOfMs now)]
      if remoteOk then
        ({ s with websites := optimistic }, writes)
      else
        ({ s with websites := sortByCreatedAt (optimistic ++ [websiteToRemove]) }, writes)

/-- The local merge `{ ...originalWebsite, ...updates }` of `editWebsite`
(the source also re-normalises `tags` to an array, which is an identity in
this typed model). -/
def applyWebsiteUpdates (w : Website) (u : WebsiteUpdates) : Website :=
  { id := w.id, userId := w.userId, createdAt := w.createdAt,
    title := u.title.getD w.title,
    url := u.url.getD w.url,
    description := u.description.or w.description,
    preview := u.preview.or w.preview,
    favicon := u.favicon.or w.favicon,
    tags := u.tags.getD w.tags,
    visits := u.visits.getD w.visits,
    lastVisit := u.lastVisit.or w.lastVisit,
    deleted := u.deleted.or w.deleted,
    deletedAt := u.deletedAt.or w.deletedAt }

/-- The Firestore update object of `editWebsite`: dates rendered to ISO
strings (absent dates are deleted from the object), and `visits` deleted;
`id`, `userId`, `createdAt` do not exist in the payload type at all. -/
def mkWebsiteUpdatePayload (updates : WebsiteUpdates) : WebsiteUpdatePayload :=
  { title := updates.title, url := updates.url, description := updates.description,
    preview := updates.preview, favicon := updates.favicon, tags := updates.tags,
    lastVisit := updates.lastVisit.map isoOfMs,
    deletedAt := updates.deletedAt.map isoOfMs,
    visits := none,
    deleted := updates.deleted }

/-- Source `editWebsite`: merge the update into the local entry
optimistically, send the stripped update object, and on failure map the
entry back to its original value. -/
def editWebsite (s : StoreState) (websiteId : String) (updates : WebsiteUpdates)
    (remoteOk : Bool) : StoreState × List RemoteWrite :=
  match s.currentUser with
  | none => (s, [])
  | some currentUser =>
    match findIdxElem (fun w => w.id == websiteId && w.userId == currentUser) s.websites with
    | none => (s, [])
    | some (i, originalWebsite) =>
      let updatedWebsite := applyWebsiteUpdates originalWebsite updates
      let optimistic := s.websites.set i updatedWebsite
      let writes := [RemoteWrite.updateWebsiteFields currentUser websiteId
        (mkWebsiteUpdatePayload updates)]
      if remoteOk then
        ({ s with websites := optimistic }, writes)
      else
        ({ s with websites :=
            optimistic.map (fun w => if w.id == websiteId then originalWebsite else w) }, writes)

/-- Source `getMostVisitedWebsites`: filter to the current user's non-deleted
entries, sort by visit count descending, truncate. -/
def getMostVisitedWebsites (s : StoreState) (limit : Nat) : List Website :=
  match s.currentUser with
  | none => []
  | some currentUser =>
    (((s.websites.filter (fun w => w.userId == currentUser && !(w.deleted.getD false))).mergeSort
      (fun a b => decide (b.visits ≤ a.visits))).take limit)

/-- The recency key `a.lastVisit?.getTime() ?? a.createdAt?.getTime() ?? 0`. -/
def recentSortKey (w : Website) : Nat := w.lastVisit.getD w.createdAt

/-- Source `getRecentWebsites`: filter to the current user's non-deleted entries,
sort by last visit (falling back to creation time) descending, truncate. -/
def getRecentWebsites (s : StoreState) (limit : Nat) : List Website :=
  match s.currentUser with
  | none => []
  | some currentUser =>
    (((s.websites.filter (fun w => w.userId == currentUser && !(w.deleted.getD false))).mergeSort
      (fun a b => decide (recentSortKey b ≤ recentSortKey a))).take limit)

/-- The new group `addGroup` constructs. -/
def mkNewGroup (name : String) (description : Option String) (freshId : String)
    (now : Nat) (currentUser : String) : WebsiteGroup :=
  { id := freshId, name := name, description := some (description.getD ""),
    isExpanded := some true, createdAt := now, userId := currentUser,
    deleted := none, deletedAt := none }

/-- Source `addGroup`. -/
def addGroup (s : StoreState) (name : String) (description : Option String)
    (freshId : String) (now : Nat) (remoteOk : Bool) : StoreState × List RemoteWrite :=
  match s.currentUser with
  | none => (s, [])
  | some currentUser =>
    let newGroup := mkNewGroup name description freshId now currentUser
    let writes := [RemoteWrite.setGroupDoc currentUser (toFirestoreGroup newGroup)]
    if remoteOk then
      ({ s with groups := s.groups ++ [newGroup] }, writes)
    else
      ({ s with groups := (s.groups ++ [newGroup]).filter (fun g => !(g.id == newGroup.id)) },
        writes)

/-- The local merge of `updateGroup`. -/
def applyGroupUpdates (g : WebsiteGroup) (u : GroupUpdates) : WebsiteGroup :=
  { id := g.id, userId := g.userId, createdAt := g.createdAt,
    name := u.name.getD g.name,
    description := u.description.or g.description,
    isExpanded := u.isExpanded.or g.isExpanded,
    deleted := u.deleted.or g.deleted,
    deletedAt := u.deletedAt.or g.deletedAt }

/-- The Firestore update object of `updateGroup` (dates rendered, `id`,
`userId`, `createdAt` absent from the type, mirroring the deletes). -/
def mkGroupUpdatePayload (updates : GroupUpdates) : GroupUpdatePayload :=
  { name := updates.name, description := updates.description,
    isExpanded := updates.isExpanded, deleted := updates.deleted,
    deletedAt := updates.deletedAt.map isoOfMs }

/-- Source `updateGroup`. -/
def updateGroup (s : StoreState) (id : String) (updates : GroupUpdates)
    (remoteOk : Bool) : StoreState × List RemoteWrite :=
  match s.currentUser with
  | none => (s, [])
  | some currentUser =>
    match findIdxElem (fun g => g.id == id && g.userId == currentUser) s.groups with
    | none => (s, [])
    | some (i, originalGroup) =>
      let updatedGroup := applyGroupUpdates originalGroup updates
      let optimistic := s.groups.set i updatedGroup
      let writes := [RemoteWrite.updateGroupFields currentUser id (mkGroupUpdatePayload updates)]
      if remoteOk then
        ({ s with groups := optimistic }, writes)
      else
        ({ s with groups :=
            optimistic.map (fun g => if g.id == id then originalGroup else g) }, writes)

/-- Source `deleteGroup`. -/
def deleteGroup (s : StoreState) (id : String) (now : Nat) (remoteOk : Bool) :
    StoreState × List RemoteWrite :=
  match s.currentUser with
  | none => (s, [])
  | some currentUser =>
    match s.groups.find? (fun g => g.id == id && g.userId == currentUser) with
    | none => (s, [])
    | some groupToDelete =>
      let optimistic := s.groups.filter (fun g => !(g.id == id))
      let writes := [RemoteWrite.softDeleteGroup currentUser id (isoOfMs now)]
      if remoteOk then
        ({ s with groups := optimistic }, writes)
      else
        ({ s with groups := sortGroupsByCreatedAt (optimistic ++ [groupToDelete]) }, writes)

/-- Source `toggleGroupExpansion` (`!group.isExpanded` on a
possibly-absent flag). -/
def toggleGroupExpansion (s : StoreState) (id : String) (remoteOk : Bool) :
    StoreState × List RemoteWrite :=
  match s.currentUser with
  | none => (s, [])
  | some currentUser =>
    match findIdxElem (fun g => g.id == id && g.userId == currentUser) s.groups with
    | none => (s, [])
    | some (i, originalGroup) =>
      let updatedGroup := { originalGroup with
        isExpanded := some (!(originalGroup.isExpanded.getD false)) }
      let optimistic := s.groups.set i updatedGroup
      let writes := [RemoteWrite.updateGroupExpansion currentUser id
        (!(originalGroup.isExpanded.getD false))]
      if remoteOk then
        ({ s with groups := optimistic }, writes)
      else
        ({ s with groups :=
            optimistic.map (fun g => if g.id == id then originalGroup else g) }, writes)

/-- First-occurrence de-duplication, the model of `[...new Set(list)]`
(JavaScript `Set` preserves insertion order of first occurrences). -/
def jsSetDedup (l : List String) : List String :=
  l.foldl (fun acc t => if t ∈ acc then acc else acc ++ [t]) []

/-- Source `getTags`: distinct tags over the current user's
non-deleted entries. -/
def getTags (s : StoreState) : List String :=
  match s.currentUser with
  | none => []
  | some currentUser =>
    jsSetDedup (((s.websites.filter
      (fun w => w.userId == currentUser && !(w.deleted.getD false))).map
        (fun website => website.tags)).flatten)

/-- Source `getWebsitesByTag`. -/
def getWebsitesByTag (s : StoreState) (tag : String) : List Website :=
  match s.currentUser with
  | none => []
  | some currentUser =>
    s.websites.filter
      (fun w => w.userId == currentUser && !(w.deleted.getD false) && w.tags.contains tag)

/-! ### Reconciliation of Firestore snapshot change batches -/

/-- The `DocumentChange.type` of the Firestore SDK. -/
inductive ChangeType where
  | added
  | modified
  | removed
deriving DecidableEq

/-- One change record of a websites snapshot: its type and the document
data (still in wire form; the listener converts it). -/
structure WebsiteChange where
  type : ChangeType
  doc : FirestoreWebsite
deriving DecidableEq

/-- Source pattern `findIndex` on the id followed by `splice(index, 1)`: remove the first
entry with the given id, if any. -/
def removeFirstById (i : String) : List Website → List Website
  | [] => []
  | w :: ws => if w.id == i then ws else w :: removeFirstById i ws

/-- Source pattern `findIndex` on the id followed by assignment at that index: overwrite
the first entry with the given id. -/
def replaceFirstById (i : String) (x : Website) : List Website → List Website
  | [] => []
  | w :: ws => if w.id == i then x :: ws else w :: replaceFirstById i x ws

/-- The check `findIndex(w => w.id === website.id) !== -1`. -/
def containsId (i : String) (ws : List Website) : Bool :=
  ws.any (fun w => w.id == i)

/-- The body of the websites `onSnapshot` fold for one change record:
convert the document, then remove it if soft-deleted, else insert or
overwrite on `added`/`modified` and remove on `removed`. -/
def applyWebsiteChange (ws : List Website) (change : WebsiteChange) : List Website :=
  let website := fromFirestoreWebsite change.doc
  if website.deleted.getD false then
    removeFirstById website.id ws
  else
    match change.type with
    | ChangeType.added =>
      if containsId website.id ws then replaceFirstById website.id website ws
      else ws ++ [website]
    | ChangeType.modified =>
      if containsId website.id ws then replaceFirstById website.id website ws
      else ws ++ [website]
    | ChangeType.removed => removeFirstById website.id ws

/-- The whole websites snapshot handler: fold the batch over the current
list, then sort by creation time ascending. -/
def reconcileWebsites (ws : List Website) (changes : List WebsiteChange) : List Website :=
  sortByCreatedAt (changes.foldl applyWebsiteChange ws)

/-- The single `set({ websites })` the listener performs for a batch. -/
def websitesSnapshotStep (s : StoreState) (changes : List WebsiteChange) : StoreState :=
  { s with websites := reconcileWebsites s.websites changes }

/-- Modelled from the spec (section 4.3): one change record folded per the
spec text, in its wording order: soft-deleted documents are removed first;
an add appends when the identifier is absent and otherwise overwrites; a
modify overwrites and appends when absent; a remove removes when present. -/
def specApplyChangeRecord (ws : List Website) (change : WebsiteChange) : List Website :=
  let remote := fromFirestoreWebsite change.doc
  if remote.deleted.getD false then
    removeFirstById remote.id ws
  else if change.type = ChangeType.added then
    if containsId remote.id ws = false then ws ++ [remote]
    else replaceFirstById remote.id remote ws
  else if change.type = ChangeType.modified then
    if containsId remote.id ws then replaceFirstById remote.id remote ws
    else ws ++ [remote]
  else
    removeFirstById remote.id ws

/-- Modelled from the spec (section 4.3): fold the whole batch, then sort
by creation time ascending. -/
def specReconcile (ws : List Website) (changes : List WebsiteChange) : List Website :=
  sortByCreatedAt (changes.foldl specApplyChangeRecord ws)

theorem applyWebsiteChange_eq_spec :
    applyWebsiteChange = specApplyChangeRecord := by
  funext ws change
  obtain ⟨t, doc⟩ := change
  by_cases hd : (fromFirestoreWebsite doc).deleted.getD false = true
  · cases t <;> simp [applyWebsiteChange, specApplyChangeRecord, hd]
  · by_cases hc : containsId (fromFirestoreWebsite doc).id ws = true
    · cases t <;> simp [applyWebsiteChange, specApplyChangeRecord, hd, hc]
    · cases t <;> simp [applyWebsiteChange, specApplyChangeRecord, hd, hc]

/-! ### Order-independence analysis of the reconciliation fold -/

/-- All local entries carrying a given identifier, in order. -/
def filterById (i : String) (ws : List Website) : List Website :=
  ws.filter (fun w => w.id == i)

/-- The identifier a change record touches. -/
def changeDocId (c : WebsiteChange) : String := c.doc.id

/-- The effect of one change record on the sublist of entries carrying its
own identifier (the fold leaves every other identifier's sublist alone). -/
def chEffect (c : WebsiteChange) (l : List Website) : List Website :=
  let website := fromFirestoreWebsite c.doc
  if website.deleted.getD false then l.tail
  else
    match c.type with
    | ChangeType.removed => l.tail
    | _ => if l.isEmpty then l ++ [website] else website :: l.tail


theorem filterById_cons_pos (i : String) (w : Website) (ws : List Website) (hw : w.id = i) :
    filterById i (w :: ws) = w :: filterById i ws := by
  simp [filterById, List.filter_cons, hw]

theorem filterById_cons_neg (i : String) (w : Website) (ws : List Website) (hw : ¬ w.id = i) :
    filterById i (w :: ws) = filterById i ws := by
  simp [filterById, List.filter_cons, hw]

theorem removeFirstById_cons_pos (j : String) (w : Website) (ws : List Website)
    (hw : w.id = j) : removeFirstById j (w :: ws) = ws := by
  simp [removeFirstById, hw]

theorem removeFirstById_cons_neg (j : String) (w : Website) (ws : List Website)
    (hw : ¬ w.id = j) : removeFirstById j (w :: ws) = w :: removeFirstById j ws := by
  simp [removeFirstById, hw]

theorem replaceFirstById_cons_pos (j : String) (x w : Website) (ws : List Website)
    (hw : w.id = j) : replaceFirstById j x (w :: ws) = x :: ws := by
  simp [replaceFirstById, hw]

theorem replaceFirstById_cons_neg (j : String) (x w : Website) (ws : List Website)
    (hw : ¬ w.id = j) : replaceFirstById j x (w :: ws) = w :: replaceFirstById j x ws := by
  simp [replaceFirstById, hw]

theorem removeFirstById_filter_ne (i j : String) (h : ¬ i = j) (ws : List Website) :
    filterById i (removeFirstById j ws) = filterById i ws := by
  induction ws with
  | nil => rfl
  | cons w ws ih =>
    by_cases hw : w.id = j
    · rw [removeFirstById_cons_pos j w ws hw,
        filterById_cons_neg i w ws (fun e => h (e ▸ hw))]
    · by_cases hwi : w.id = i
      · rw [removeFirstById_cons_neg j w ws hw, filterById_cons_pos i w _ hwi,
          filterById_cons_pos i w ws hwi, ih]
      · rw [removeFirstById_cons_neg j w ws hw, filterById_cons_neg i w _ hwi,
          filterById_cons_neg i w ws hwi, ih]

theorem removeFirstById_filter_self (j : String) (ws : List Website) :
    filterById j (removeFirstById j ws) = (filterById j ws).tail := by
  induction ws with
  | nil => rfl
  | cons w ws ih =>
    by_cases hw : w.id = j
    · rw [removeFirstById_cons_pos j w ws hw, filterById_cons_pos j w ws hw]
      rfl
    · rw [removeFirstById_cons_neg j w ws hw, filterById_cons_neg j w _ hw,
        filterById_cons_neg j w ws hw, ih]

theorem replaceFirstById_filter_ne (i j : String) (x : Website) (h : ¬ i = j)
    (hx : x.id = j) (ws : List Website) :
    filterById i (replaceFirstById j x ws) = filterById i ws := by
  induction ws with
  | nil => rfl
  | cons w ws ih =>
    by_cases hw : w.id = j
    · rw [replaceFirstById_cons_pos j x w ws hw,
        filterById_cons_neg i x ws (fun e => h (e ▸ hx)),
        filterById_cons_neg i w ws (fun e => h (e ▸ hw))]
    · by_cases hwi : w.id = i
      · rw [replaceFirstById_cons_neg j x w ws hw, filterById_cons_pos i w _ hwi,
          filterById_cons_pos i w ws hwi, ih]
      · rw [replaceFirstById_cons_neg j x w ws hw, filterById_cons_neg i w _ hwi,
          filterById_cons_neg i w ws hwi, ih]

theorem replaceFirstById_filter_self (j : String) (x : Website) (hx : x.id = j)
    (ws : List Website) (hc : containsId j ws = true) :
    filterById j (replaceFirstById j x ws) = x :: (filterById j ws).tail := by
  induction ws with
  | nil => simp [containsId] at hc
  | cons w ws ih =>
    by_cases hw : w.id = j
    · rw [replaceFirstById_cons_pos j x w ws hw, filterById_cons_pos j x ws hx,
        filterById_cons_pos j w ws hw]
      rfl
    · have hc2 : containsId j ws = true := by
        simp only [containsId, List.any_cons, Bool.or_eq_true, beq_iff_eq] at hc
        rcases hc with hc | hc
        · exact absurd hc hw
        · simpa [containsId] using hc
      rw [replaceFirstById_cons_neg j x w ws hw, filterById_cons_neg j w _ hw,
        filterById_cons_neg j w ws hw, ih hc2]

theorem containsId_false_filter_nil (j : String) (ws : List Website)
    (hc : containsId j ws = false) : filterById j ws = [] := by
  induction ws with
  | nil => rfl
  | cons w ws ih =>
    simp only [containsId, List.any_cons, Bool.or_eq_false_iff, beq_eq_false_iff_ne] at hc
    rw [filterById_cons_neg j w ws hc.1, ih (by simp [containsId, hc.2])]

theorem containsId_eq_not_isEmpty (j : String) (ws : List Website) :
    containsId j ws = !(filterById j ws).isEmpty := by
  induction ws with
  | nil => rfl
  | cons w ws ih =>
    by_cases hw : w.id = j
    · rw [filterById_cons_pos j w ws hw]
      simp [containsId, hw]
    · rw [filterById_cons_neg j w ws hw, containsId, List.any_cons,
        show (w.id == j) = false by simp [hw]]
      simpa [containsId] using ih

theorem filterById_append_single (i : String) (ws : List Website) (x : Website) :
    filterById i (ws ++ [x]) = filterById i ws ++ (if x.id = i then [x] else []) := by
  by_cases hx : x.id = i
  · simp [filterById, List.filter_append, List.filter_cons, hx]
  · simp [filterById, List.filter_append, List.filter_cons, hx]

/-- The fold step decomposed per identifier: a change record only rewrites
the sublist of entries carrying its own identifier, by the list function
`chEffect`; every other identifier's sublist is untouched. -/
theorem filterById_applyWebsiteChange (ws : List Website) (c : WebsiteChange) (i : String) :
    filterById i (applyWebsiteChange ws c) =
      if i = changeDocId c then chEffect c (filterById i ws) else filterById i ws := by
  obtain ⟨t, doc⟩ := c
  simp only [applyWebsiteChange, chEffect, changeDocId]
  have hid : (fromFirestoreWebsite doc).id = doc.id := rfl
  by_cases hij : i = doc.id
  · subst hij
    rw [if_pos rfl]
    by_cases hd : (fromFirestoreWebsite doc).deleted.getD false = true
    · rw [if_pos hd, if_pos hd, hid, removeFirstById_filter_self]
    · rw [if_neg hd, if_neg hd]
      have hx : (fromFirestoreWebsite doc).id = doc.id := rfl
      cases t with
      | removed => rw [hid, removeFirstById_filter_self]
      | added =>
        by_cases hcon : containsId (fromFirestoreWebsite doc).id ws = true
        · rw [if_pos hcon, hid] at *
          rw [replaceFirstById_filter_self doc.id (fromFirestoreWebsite doc) hx ws hcon]
          have : (filterById doc.id ws).isEmpty = false := by
            have h2 := containsId_eq_not_isEmpty doc.id ws
            rw [hcon] at h2
            simpa using h2.symm
          rw [if_neg (by simp [this])]
        · rw [if_neg hcon, hid] at *
          have hnil : filterById doc.id ws = [] :=
            containsId_false_filter_nil doc.id ws (by simpa using hcon)
          rw [filterById_append_single, hnil,
            if_pos (show (fromFirestoreWebsite doc).id = doc.id from rfl)]
          simp
      | modified =>
        by_cases hcon : containsId (fromFirestoreWebsite doc).id ws = true
        · rw [if_pos hcon, hid] at *
          rw [replaceFirstById_filter_self doc.id (fromFirestoreWebsite doc) hx ws hcon]
          have : (filterById doc.id ws).isEmpty = false := by
            have h2 := containsId_eq_not_isEmpty doc.id ws
            rw [hcon] at h2
            simpa using h2.symm
          rw [if_neg (by simp [this])]
        · rw [if_neg hcon, hid] at *
          have hnil : filterById doc.id ws = [] :=
            containsId_false_filter_nil doc.id ws (by simpa using hcon)
          rw [filterById_append_single, hnil,
            if_pos (show (fromFirestoreWebsite doc).id = doc.id from rfl)]
          simp
  · rw [if_neg hij]
    by_cases hd : (fromFirestoreWebsite doc).deleted.getD false = true
    · rw [if_pos hd, hid, removeFirstById_filter_ne i doc.id hij]
    · rw [if_neg hd]
      cases t with
      | removed => rw [hid, removeFirstById_filter_ne i doc.id hij]
      | added =>
        by_cases hcon : containsId (fromFirestoreWebsite doc).id ws = true
        · rw [if_pos hcon, hid,
            replaceFirstById_filter_ne i doc.id (fromFirestoreWebsite doc) hij rfl]
        · rw [if_neg hcon, hid, filterById_append_single, if_neg (by exact hij ∘ Eq.symm)]
          simp
      | modified =>
        by_cases hcon : containsId (fromFirestoreWebsite doc).id ws = true
        · rw [if_pos hcon, hid,
            replaceFirstById_filter_ne i doc.id (fromFirestoreWebsite doc) hij rfl]
        · rw [if_neg hcon, hid, filterById_append_single, if_neg (by exact hij ∘ Eq.symm)]
          simp

theorem foldl_filter_congr (cs : List WebsiteChange) :
    ∀ (ws1 ws2 : List Website), (∀ i, filterById i ws1 = filterById i ws2) →
      ∀ i, filterById i (cs.foldl applyWebsiteChange ws1)
        = filterById i (cs.foldl applyWebsiteChange ws2) := by
  induction cs with
  | nil => intro _ _ h i; exact h i
  | cons c cs ih =>
    intro ws1 ws2 h i
    simp only [List.foldl_cons]
    refine ih _ _ (fun j => ?_) i
    rw [filterById_applyWebsiteChange, filterById_applyWebsiteChange, h j]

theorem applyChange_swap_filter (c d : WebsiteChange)
    (h : ¬ changeDocId c = changeDocId d) (ws : List Website) (i : String) :
    filterById i (applyWebsiteChange (applyWebsiteChange ws c) d)
      = filterById i (applyWebsiteChange (applyWebsiteChange ws d) c) := by
  rw [filterById_applyWebsiteChange, filterById_applyWebsiteChange,
    filterById_applyWebsiteChange, filterById_applyWebsiteChange]
  by_cases hc : i = changeDocId c
  · by_cases hd : i = changeDocId d
    · exact absurd (hc.symm.trans hd) h
    · rw [if_neg hd, if_pos hc, if_pos hc, if_neg hd]
  · by_cases hd : i = changeDocId d
    · rw [if_pos hd, if_neg hc, if_neg hc, if_pos hd]
    · rw [if_neg hd, if_neg hc, if_neg hc, if_neg hd]

theorem foldl_filter_perm {cs1 cs2 : List WebsiteChange} (hp : cs1.Perm cs2) :
    cs1.Pairwise (fun c d => changeDocId c ≠ changeDocId d) →
    ∀ (ws : List Website) (i : String),
      filterById i (cs1.foldl applyWebsiteChange ws)
        = filterById i (cs2.foldl applyWebsiteChange ws) := by
  induction hp with
  | nil => intro _ ws i; rfl
  | cons x p ih =>
    intro hnd ws i
    simp only [List.foldl_cons]
    exact ih (List.pairwise_cons.mp hnd).2 _ i
  | swap x y l =>
    intro hnd ws i
    simp only [List.foldl_cons]
    have hxy : ¬ changeDocId y = changeDocId x :=
      (List.pairwise_cons.mp hnd).1 x (by simp)
    exact foldl_filter_congr l _ _ (fun j => applyChange_swap_filter y x hxy ws j) i
  | trans p1 p2 ih1 ih2 =>
    intro hnd ws i
    rw [ih1 hnd ws i,
      ih2 ((p1.pairwise_iff (fun h => Ne.symm h)).mp hnd) ws i]

theorem perm_of_filterById_eq {l1 l2 : List Website}
    (h : ∀ i, filterById i l1 = filterById i l2) : l1.Perm l2 := by
  rw [List.perm_iff_count]
  intro w
  have h1 : List.count w (filterById w.id l1) = List.count w l1 :=
    List.count_filter (by simp)
  have h2 : List.count w (filterById w.id l2) = List.count w l2 :=
    List.count_filter (by simp)
  rw [← h1, ← h2, h w.id]

theorem sortByCreatedAt_perm (ws : List Website) : (sortByCreatedAt ws).Perm ws :=
  List.mergeSort_perm ws _

/-! ### Claim theorems -/

/-- Claim C1: for every incoming batch of remote change records, the
listener fold starting from the current local website list processes the
records in delivery order exactly as the spec describes (soft-deleted
documents are removed; an add appends when absent and otherwise
overwrites; a modify overwrites, appending when absent; a remove removes
when present), and the resulting list, sorted by creation time ascending,
replaces the local websites state in a single update, leaving the rest of
the state untouched. -/
theorem C1_reconciliation_refines_spec (s : StoreState) (changes : List WebsiteChange) :
    websitesSnapshotStep s changes = { s with websites := specReconcile s.websites changes } := by
  unfold websitesSnapshotStep reconcileWebsites specReconcile
  rw [applyWebsiteChange_eq_spec]

def cexDocA : FirestoreWebsite :=
  { id := "a", title := "A", url := "https://a.example", description := none,
    preview := none, favicon := none, tags := [], visits := 0, lastVisit := none,
    createdAt := isoOfMs 0, userId := "user1", deleted := none, deletedAt := none }

def cexDocB : FirestoreWebsite := { cexDocA with id := "b", title := "B" }

def cexAddA : WebsiteChange := { type := ChangeType.added, doc := cexDocA }

def cexAddB : WebsiteChange := { type := ChangeType.added, doc := cexDocB }

/-- Claim C2 counterexample: two `added` records with distinct identifiers
but the same creation timestamp, applied to the empty local list in the
two possible orders, leave the local state as two different lists (the
sort by creation time is stable, so the fold order shows through). -/
theorem C2_counterexample :
    List.Pairwise (fun c d => changeDocId c ≠ changeDocId d) [cexAddA, cexAddB] ∧
    List.Perm [cexAddA, cexAddB] [cexAddB, cexAddA] ∧
    reconcileWebsites [] [cexAddA, cexAddB] ≠ reconcileWebsites [] [cexAddB, cexAddA] := by
  have h1 : reconcileWebsites [] [cexAddA, cexAddB]
      = [fromFirestoreWebsite cexDocA, fromFirestoreWebsite cexDocB] := by
    unfold reconcileWebsites sortByCreatedAt
    rw [show List.foldl applyWebsiteChange [] [cexAddA, cexAddB]
        = [fromFirestoreWebsite cexDocA, fromFirestoreWebsite cexDocB] from by decide]
    exact List.mergeSort_of_sorted (by decide)
  have h2 : reconcileWebsites [] [cexAddB, cexAddA]
      = [fromFirestoreWebsite cexDocB, fromFirestoreWebsite cexDocA] := by
    unfold reconcileWebsites sortByCreatedAt
    rw [show List.foldl applyWebsiteChange [] [cexAddB, cexAddA]
        = [fromFirestoreWebsite cexDocB, fromFirestoreWebsite cexDocA] from by decide]
    exact List.mergeSort_of_sorted (by decide)
  refine ⟨by decide, List.Perm.swap cexAddB cexAddA [], ?_⟩
  rw [h1, h2]
  decide

/-- Claim C2 (amended): for every starting local list and every batch of
change records whose identifiers are pairwise distinct, applying the
reconciliation fold yields the same final local state up to ordering
(the same entries as a multiset) for every permutation of the batch; the
lists themselves can differ when entries share a creation timestamp, as
the counterexample shows. -/
theorem C2_reconcile_perm (cs1 cs2 : List WebsiteChange)
    (hnd : List.Pairwise (fun c d => changeDocId c ≠ changeDocId d) cs1)
    (hp : List.Perm cs1 cs2) (ws : List Website) :
    List.Perm (reconcileWebsites ws cs1) (reconcileWebsites ws cs2) := by
  have h := foldl_filter_perm hp hnd ws
  have hperm := perm_of_filterById_eq (fun i => h i)
  exact (sortByCreatedAt_perm _).trans (hperm.trans (sortByCreatedAt_perm _).symm)

theorem C2_reconcile_perm_witness :
    List.Perm (reconcileWebsites [] [cexAddA, cexAddB]) (reconcileWebsites [] [cexAddB, cexAddA]) :=
  C2_reconcile_perm [cexAddA, cexAddB] [cexAddB, cexAddA] (by decide)
    (List.Perm.swap cexAddB cexAddA []) []

/-- Claim C8: converting an entry's timestamp fields to the wire
representation with `toFirestoreWebsite` and back with
`fromFirestoreWebsite` restores the entry exactly — in particular every
timestamp round-trips to the millisecond, and absent optional timestamps
stay absent. -/
theorem C8_firestore_roundtrip (w : Website) :
    fromFirestoreWebsite (toFirestoreWebsite w) = w := by
  cases w with
  | mk id title url description preview favicon tags visits lastVisit createdAt
      userId deleted deletedAt =>
    simp only [fromFirestoreWebsite, toFirestoreWebsite, msOfISO_isoOfMs]
    cases lastVisit <;> cases deletedAt <;> simp [msOfISO_isoOfMs]

theorem findIdxElem_spec (p : α → Bool) :
    ∀ (l : List α) (i : Nat) (a : α), findIdxElem p l = some (i, a) →
      l[i]? = some a ∧ p a = true := by
  intro l
  induction l with
  | nil => intro i a h; simp [findIdxElem] at h
  | cons x l ih =>
    intro i a h
    rw [findIdxElem] at h
    by_cases hx : p x = true
    · rw [if_pos hx] at h
      simp only [Option.some.injEq, Prod.mk.injEq] at h
      obtain ⟨h1, h2⟩ := h
      subst h1
      subst h2
      exact ⟨by simp, hx⟩
    · rw [if_neg hx] at h
      cases e : findIdxElem p l with
      | none => rw [e] at h; simp at h
      | some y =>
        rw [e] at h
        obtain ⟨j, b⟩ := y
        simp only [Option.map, Option.some.injEq, Prod.mk.injEq] at h
        obtain ⟨h1, h2⟩ := h
        subst h2
        have hib := ih j b e
        rw [← h1]
        simpa using hib

/-- Claim C3: for a signed-in user and an entry they own, `addVisit`
increments the entry's visit counter by exactly one and stamps its last
visit with the current time in local state, sends exactly the two fields
`visits` and `lastVisit` in the remote update, and on remote failure the
entry's exact prior snapshot is back at its position — so after one call
the counter is `+1` on success and unchanged on failure. -/
theorem C3_addVisit (s : StoreState) (u websiteId : String) (i : Nat) (old : Website)
    (hu : s.currentUser = some u)
    (hfind : findIdxElem (fun w => w.id == websiteId && w.userId == u) s.websites
      = some (i, old)) :
    (∀ now, (addVisit s websiteId now true).1.websites
        = s.websites.set i { old with visits := old.visits + 1, lastVisit := some now }) ∧
    (∀ now, ((addVisit s websiteId now false).1.websites)[i]? = some old) ∧
    (∀ now ok, (addVisit s websiteId now ok).2
        = [RemoteWrite.updateVisitFields u websiteId (old.visits + 1) (some (isoOfMs now))]) := by
  have hspec := findIdxElem_spec _ s.websites i old hfind
  have hlt : i < s.websites.length := by
    rcases List.getElem?_eq_some_iff.mp hspec.1 with ⟨hh, _⟩
    exact hh
  have hid : old.id = websiteId := by
    have h2 := hspec.2
    simp only [Bool.and_eq_true, beq_iff_eq] at h2
    exact h2.1
  refine ⟨?_, ?_, ?_⟩
  · intro now
    simp [addVisit, hu, hfind]
  · intro now
    simp only [addVisit, hu, hfind, Bool.false_eq_true, if_false]
    rw [List.getElem?_map, List.getElem?_set_self (by simpa using hlt)]
    simp [hid]
  · intro now ok
    cases ok <;> simp [addVisit, hu, hfind]

/-- Claim C4: for a signed-in user, `addWebsite` constructs a new entry
carrying the freshly generated identifier, zero visits, the current time
as creation timestamp and the signed-in user as owner, appends it to the
local list, and on remote persistence failure removes exactly that entry,
restoring the prior local list (the generated identifier is fresh, i.e.
not already in the list). -/
theorem C4_addWebsite (s : StoreState) (u freshId : String) (payload : AddWebsitePayload)
    (now : Nat) (hu : s.currentUser = some u)
    (hfresh : ∀ w ∈ s.websites, w.id ≠ freshId) :
    (addWebsite s payload freshId now true).1.websites
        = s.websites ++ [mkNewWebsite payload freshId now u] ∧
    (mkNewWebsite payload freshId now u).id = freshId ∧
    (mkNewWebsite payload freshId now u).visits = 0 ∧
    (mkNewWebsite payload freshId now u).createdAt = now ∧
    (mkNewWebsite payload freshId now u).userId = u ∧
    (addWebsite s payload freshId now false).1.websites = s.websites ∧
    (∀ ok, (addWebsite s payload freshId now ok).2
        = [RemoteWrite.setWebsiteDoc u (toFirestoreWebsite (mkNewWebsite payload freshId now u))]) := by
  refine ⟨by simp [addWebsite, hu], rfl, rfl, rfl, rfl, ?_, ?_⟩
  · have h1 : s.websites.filter
        (fun w => !(w.id == (mkNewWebsite payload freshId now u).id)) = s.websites :=
      List.filter_eq_self.mpr (fun a ha => by simp [mkNewWebsite, hfresh a ha])
    simp only [addWebsite, hu, Bool.false_eq_true, if_false, List.filter_append, h1]
    simp
  · intro ok
    cases ok <;> simp [addWebsite, hu]

/-- Claim C5: every mutating operation of the store is a silent no-op when
no user is signed in: the state is returned unchanged and no remote write
is attempted. -/
theorem C5_no_user_no_op (s : StoreState) (h : s.currentUser = none) :
    (∀ a now ok, addVisit s a now ok = (s, [])) ∧
    (∀ p fid now ok, addWebsite s p fid now ok = (s, [])) ∧
    (∀ a now ok, removeWebsite s a now ok = (s, [])) ∧
    (∀ a upd ok, editWebsite s a upd ok = (s, [])) ∧
    (∀ n d fid now ok, addGroup s n d fid now ok = (s, [])) ∧
    (∀ a upd ok, updateGroup s a upd ok = (s, [])) ∧
    (∀ a now ok, deleteGroup s a now ok = (s, [])) ∧
    (∀ a ok, toggleGroupExpansion s a ok = (s, [])) := by
  refine ⟨?_, ?_, ?_, ?_, ?_, ?_, ?_, ?_⟩ <;> intros <;>
    simp [addVisit, addWebsite, removeWebsite, editWebsite, addGroup, updateGroup,
      deleteGroup, toggleGroupExpansion, h]

/-- Claim C6: `editWebsite` merges the update's fields into the local
entry; the update object sent to the remote store has no identifier,
owning-user or creation-time components at all (they are absent from its
type, mirroring the source's `Omit` plus `delete` statements) and its
visit-counter component is always stripped to `none`; on remote failure
the local entry is restored to its pre-edit value. -/
theorem C6_editWebsite (s : StoreState) (u websiteId : String) (updates : WebsiteUpdates)
    (i : Nat) (orig : Website) (hu : s.currentUser = some u)
    (hfind : findIdxElem (fun w => w.id == websiteId && w.userId == u) s.websites
      = some (i, orig)) :
    (editWebsite s websiteId updates true).1.websites
        = s.websites.set i (applyWebsiteUpdates orig updates) ∧
    (mkWebsiteUpdatePayload updates).visits = none ∧
    (∀ ok, (editWebsite s websiteId updates ok).2
        = [RemoteWrite.updateWebsiteFields u websiteId (mkWebsiteUpdatePayload updates)]) ∧
    ((editWebsite s websiteId updates false).1.websites)[i]? = some orig := by
  have hspec := findIdxElem_spec _ s.websites i orig hfind
  have hlt : i < s.websites.length := by
    rcases List.getElem?_eq_some_iff.mp hspec.1 with ⟨hh, _⟩
    exact hh
  have hid : orig.id = websiteId := by
    have h2 := hspec.2
    simp only [Bool.and_eq_true, beq_iff_eq] at h2
    exact h2.1
  refine ⟨by simp [editWebsite, hu, hfind], rfl, ?_, ?_⟩
  · intro ok
    cases ok <;> simp [editWebsite, hu, hfind]
  · simp only [editWebsite, hu, hfind, Bool.false_eq_true, if_false]
    rw [List.getElem?_map, List.getElem?_set_self (by simpa using hlt)]
    simp [applyWebsiteUpdates, hid]

theorem deleted_getD_eq_false_iff (o : Option Bool) : o.getD false = false ↔ ¬ o = some true := by
  cases o with
  | none => simp
  | some b => cases b <;> simp

theorem getMostVisited_mem (s : StoreState) (u : String) (hu : s.currentUser = some u)
    (lim : Nat) (w : Website) (hw : w ∈ getMostVisitedWebsites s lim) :
    w ∈ s.websites ∧ w.userId = u ∧ w.deleted.getD false = false := by
  simp only [getMostVisitedWebsites, hu] at hw
  have h1 := List.take_subset _ _ hw
  rw [List.mem_mergeSort] at h1
  rw [List.mem_filter] at h1
  have h2 : w.userId = u ∧ w.deleted.getD false = false := by
    simpa [Bool.and_eq_true, beq_iff_eq] using h1.2
  exact ⟨h1.1, h2.1, h2.2⟩

theorem getRecent_mem (s : StoreState) (u : String) (hu : s.currentUser = some u)
    (lim : Nat) (w : Website) (hw : w ∈ getRecentWebsites s lim) :
    w ∈ s.websites ∧ w.userId = u ∧ w.deleted.getD false = false := by
  simp only [getRecentWebsites, hu] at hw
  have h1 := List.take_subset _ _ hw
  rw [List.mem_mergeSort] at h1
  rw [List.mem_filter] at h1
  have h2 : w.userId = u ∧ w.deleted.getD false = false := by
    simpa [Bool.and_eq_true, beq_iff_eq] using h1.2
  exact ⟨h1.1, h2.1, h2.2⟩

theorem removeWebsite_preserves_currentUser (s : StoreState) (wid : String) (now : Nat)
    (ok : Bool) : ((removeWebsite s wid now ok).1).currentUser = s.currentUser := by
  unfold removeWebsite
  cases hcu : s.currentUser with
  | none => simp [hcu]
  | some u =>
    simp only
    cases hfind : s.websites.find? (fun w => w.id == wid && w.userId == u) with
    | none => simp [hcu]
    | some wr => cases ok <;> simp [hcu]

theorem removeWebsite_ok_mem (s : StoreState) (u wid : String) (now : Nat) (w : Website)
    (hu : s.currentUser = some u) (hwu : w.userId = u)
    (hw : w ∈ ((removeWebsite s wid now true).1).websites) :
    ¬ w.id = wid := by
  cases hfind : s.websites.find? (fun x => x.id == wid && x.userId == u) with
  | none =>
    have hst : (removeWebsite s wid now true).1 = s := by
      simp [removeWebsite, hu, hfind]
    rw [hst] at hw
    intro hid
    have hall := List.find?_eq_none.mp hfind w hw
    simp only [Bool.and_eq_true, beq_iff_eq, not_and] at hall
    exact hall hid hwu
  | some wr =>
    have hst : ((removeWebsite s wid now true).1).websites
        = s.websites.filter (fun x => !(x.id == wid)) := by
      simp [removeWebsite, hu, hfind]
    rw [hst, List.mem_filter] at hw
    intro hid
    have h2 := hw.2
    rw [hid] at h2
    simp at h2

/-- Claim C7: the two ranked views are pure functions of the state: they
return at most `limit` entries, sorted descending by visit count
(most-visited) or by last-visit-falling-back-to-creation-time (recent),
every returned entry belongs to the current user's non-soft-deleted local
entries; and after `removeWebsite` succeeds optimistically (the state the
store shows before any remote echo), the removed identifier appears in
neither view. -/
theorem C7_views (s : StoreState) (u : String) (hu : s.currentUser = some u) :
    (∀ lim, (getMostVisitedWebsites s lim).length ≤ lim) ∧
    (∀ lim, List.Pairwise (fun a b => b.visits ≤ a.visits) (getMostVisitedWebsites s lim)) ∧
    (∀ lim w, w ∈ getMostVisitedWebsites s lim →
      w ∈ s.websites ∧ w.userId = u ∧ ¬ w.deleted = some true) ∧
    (∀ lim, (getRecentWebsites s lim).length ≤ lim) ∧
    (∀ lim, List.Pairwise (fun a b => recentSortKey b ≤ recentSortKey a)
      (getRecentWebsites s lim)) ∧
    (∀ lim w, w ∈ getRecentWebsites s lim →
      w ∈ s.websites ∧ w.userId = u ∧ ¬ w.deleted = some true) ∧
    (∀ wid now lim w, w ∈ getMostVisitedWebsites ((removeWebsite s wid now true).1) lim →
      ¬ w.id = wid) ∧
    (∀ wid now lim w, w ∈ getRecentWebsites ((removeWebsite s wid now true).1) lim →
      ¬ w.id = wid) := by
  refine ⟨?_, ?_, ?_, ?_, ?_, ?_, ?_, ?_⟩
  · intro lim
    simp only [getMostVisitedWebsites, hu, List.length_take]
    omega
  · intro lim
    simp only [getMostVisitedWebsites, hu]
    refine List.Pairwise.sublist (List.take_sublist _ _) ?_
    have hs := @List.sorted_mergeSort Website
      (fun a b : Website => decide (b.visits ≤ a.visits))
      (fun a b c hab hbc => by simp only [decide_eq_true_eq] at *; omega)
      (fun a b => by simp only [Bool.or_eq_true, decide_eq_true_eq]; omega)
      (s.websites.filter (fun w => w.userId == u && !(w.deleted.getD false)))
    exact hs.imp (fun h => by simpa using h)
  · intro lim w hw
    have h := getMostVisited_mem s u hu lim w hw
    exact ⟨h.1, h.2.1, (deleted_getD_eq_false_iff _).mp h.2.2⟩
  · intro lim
    simp only [getRecentWebsites, hu, List.length_take]
    omega
  · intro lim
    simp only [getRecentWebsites, hu]
    refine List.Pairwise.sublist (List.take_sublist _ _) ?_
    have hs := @List.sorted_mergeSort Website
      (fun a b : Website => decide (recentSortKey b ≤ recentSortKey a))
      (fun a b c hab hbc => by simp only [decide_eq_true_eq] at *; omega)
      (fun a b => by simp only [Bool.or_eq_true, decide_eq_true_eq]; omega)
      (s.websites.filter (fun w => w.userId == u && !(w.deleted.getD false)))
    exact hs.imp (fun h => by simpa using h)
  · intro lim w hw
    have h := getRecent_mem s u hu lim w hw
    exact ⟨h.1, h.2.1, (deleted_getD_eq_false_iff _).mp h.2.2⟩
  · intro wid now lim w hw
    have hcu : ((removeWebsite s wid now true).1).currentUser = some u := by
      rw [removeWebsite_preserves_currentUser, hu]
    have h := getMostVisited_mem _ u hcu lim w hw
    exact removeWebsite_ok_mem s u wid now w hu h.2.1 h.1
  · intro wid now lim w hw
    have hcu : ((removeWebsite s wid now true).1).currentUser = some u := by
      rw [removeWebsite_preserves_currentUser, hu]
    have h := getRecent_mem _ u hcu lim w hw
    exact removeWebsite_ok_mem s u wid now w hu h.2.1 h.1

theorem jsSetDedup_go_mem (l : List String) :
    ∀ (acc : List String) (t : String),
      t ∈ l.foldl (fun acc t => if t ∈ acc then acc else acc ++ [t]) acc ↔
        t ∈ acc ∨ t ∈ l := by
  induction l with
  | nil => intro acc t; simp
  | cons x l ih =>
    intro acc t
    simp only [List.foldl_cons]
    by_cases hx : x ∈ acc
    · rw [if_pos hx, ih]
      simp only [List.mem_cons]
      constructor
      · tauto
      · rintro (h | h | h)
        · exact Or.inl h
        · exact Or.inl (h ▸ hx)
        · exact Or.inr h
    · rw [if_neg hx, ih]
      simp only [List.mem_append, List.mem_cons, List.not_mem_nil, or_false]
      tauto

theorem jsSetDedup_mem (l : List String) (t : String) : t ∈ jsSetDedup l ↔ t ∈ l := by
  unfold jsSetDedup
  rw [jsSetDedup_go_mem]
  simp

theorem jsSetDedup_go_nodup (l : List String) :
    ∀ acc : List String, acc.Nodup →
      (l.foldl (fun acc t => if t ∈ acc then acc else acc ++ [t]) acc).Nodup := by
  induction l with
  | nil => intro acc h; simpa using h
  | cons x l ih =>
    intro acc h
    simp only [List.foldl_cons]
    by_cases hx : x ∈ acc
    · rw [if_pos hx]
      exact ih acc h
    · rw [if_neg hx]
      refine ih (acc ++ [x]) ?_
      simp [List.nodup_append, h, hx]

theorem jsSetDedup_nodup (l : List String) : (jsSetDedup l).Nodup :=
  jsSetDedup_go_nodup l [] List.nodup_nil

/-- Claim C9: entries whose soft-delete flag is set never appear in
`getWebsitesByTag` results, and never contribute a tag to `getTags`:
every tag returned is carried by some non-soft-deleted entry. -/
theorem C9_soft_deleted_hidden (s : StoreState) (tag : String) :
    (∀ w ∈ getWebsitesByTag s tag, ¬ w.deleted = some true) ∧
    (∀ t ∈ getTags s, ∃ w, w ∈ s.websites ∧ ¬ w.deleted = some true ∧ t ∈ w.tags) := by
  constructor
  · intro w hw
    unfold getWebsitesByTag at hw
    cases hcu : s.currentUser with
    | none => rw [hcu] at hw; simp at hw
    | some u =>
      rw [hcu] at hw
      simp only at hw
      rw [List.mem_filter] at hw
      have h2 := hw.2
      simp only [Bool.and_eq_true, beq_iff_eq, Bool.not_eq_eq_eq_not, Bool.not_true] at h2
      exact (deleted_getD_eq_false_iff _).mp h2.1.2
  · intro t ht
    unfold getTags at ht
    cases hcu : s.currentUser with
    | none => rw [hcu] at ht; simp at ht
    | some u =>
      rw [hcu] at ht
      simp only at ht
      rw [jsSetDedup_mem, List.mem_flatten] at ht
      obtain ⟨l, hl, htl⟩ := ht
      rw [List.mem_map] at hl
      obtain ⟨w, hw, rfl⟩ := hl
      rw [List.mem_filter] at hw
      have h2 := hw.2
      simp only [Bool.and_eq_true, beq_iff_eq, Bool.not_eq_eq_eq_not, Bool.not_true] at h2
      exact ⟨w, hw.1, (deleted_getD_eq_false_iff _).mp h2.2, htl⟩

/-- Claim C10: with a signed-in user, `getTags` returns a list without
duplicates — even when one entry lists the same tag twice or several
entries share a tag — containing a tag exactly when some non-soft-deleted
entry of the current user carries it; with no signed-in user it returns
the empty list. -/
theorem C10_getTags_distinct (s : StoreState) :
    (s.currentUser = none → getTags s = []) ∧
    (∀ u, s.currentUser = some u →
      (getTags s).Nodup ∧
      ∀ t, t ∈ getTags s ↔
        ∃ w, w ∈ s.websites ∧ w.userId = u ∧ ¬ w.deleted = some true ∧ t ∈ w.tags) := by
  constructor
  · intro h
    simp [getTags, h]
  · intro u hu
    constructor
    · simp only [getTags, hu]
      exact jsSetDedup_nodup _
    · intro t
      simp only [getTags, hu]
      rw [jsSetDedup_mem, List.mem_flatten]
      constructor
      · rintro ⟨l, hl, htl⟩
        rw [List.mem_map] at hl
        obtain ⟨w, hw, rfl⟩ := hl
        rw [List.mem_filter] at hw
        have h2 := hw.2
        simp only [Bool.and_eq_true, beq_iff_eq, Bool.not_eq_eq_eq_not, Bool.not_true] at h2
        exact ⟨w, hw.1, h2.1, (deleted_getD_eq_false_iff _).mp h2.2, htl⟩
      · rintro ⟨w, hw, hwu, hwd, htw⟩
        refine ⟨w.tags, ?_, htw⟩
        rw [List.mem_map]
        refine ⟨w, ?_, rfl⟩
        rw [List.mem_filter]
        refine ⟨hw, ?_⟩
        simp [beq_iff_eq, hwu, (deleted_getD_eq_false_iff _).mpr hwd]

/-! ### Concrete witnesses -/

def wsDev : Website :=
  { id := "a", title := "T", url := "https://t.example",
    description := none, preview := none, favicon := none, tags := ["dev", "dev", "x"],
    visits := 2, lastVisit := some 5, createdAt := 3, userId := "user1",
    deleted := none, deletedAt := none }

def wsGone : Website := { wsDev with id := "d", tags := ["gone"], deleted := some true }

def sFix : StoreState :=
  { websites := [wsDev, wsGone], groups := [], currentUser := some "user1",
    isLoading := false }

def sNoUser : StoreState :=
  { websites := [wsDev], groups := [], currentUser := none, isLoading := false }

def payloadFix : AddWebsitePayload :=
  { title := "GitHub", url := "https://github.com",
    description := none, preview := none, favicon := none, tags := ["dev"] }

def updFix : WebsiteUpdates :=
  { title := some "N", url := none, description := none, preview := none,
    favicon := none, tags := some [], visits := none, lastVisit := none,
    deleted := none, deletedAt := none }

def gUpdFix : GroupUpdates :=
  { name := some "G", description := none, isExpanded := none,
    deleted := none, deletedAt := none }

theorem C3_addVisit_witness :
    (addVisit sFix "a" 7 true).1.websites
      = sFix.websites.set 0 { wsDev with visits := wsDev.visits + 1, lastVisit := some 7 } ∧
    ((addVisit sFix "a" 7 false).1.websites)[0]? = some wsDev ∧
    (addVisit sFix "a" 7 true).2
      = [RemoteWrite.updateVisitFields "user1" "a" (wsDev.visits + 1) (some (isoOfMs 7))] := by
  have h := C3_addVisit sFix "user1" "a" 0 wsDev rfl (by decide)
  exact ⟨h.1 7, h.2.1 7, h.2.2 7 true⟩

theorem C4_addWebsite_witness :
    (addWebsite sFix payloadFix "z" 9 true).1.websites
      = sFix.websites ++ [mkNewWebsite payloadFix "z" 9 "user1"] ∧
    (addWebsite sFix payloadFix "z" 9 false).1.websites = sFix.websites := by
  have h := C4_addWebsite sFix "user1" "z" payloadFix 9 rfl (by decide)
  exact ⟨h.1, h.2.2.2.2.2.1⟩

theorem C5_no_user_no_op_witness :
    addVisit sNoUser "a" 0 true = (sNoUser, []) ∧
    addWebsite sNoUser payloadFix "z" 0 true = (sNoUser, []) ∧
    removeWebsite sNoUser "a" 0 true = (sNoUser, []) ∧
    editWebsite sNoUser "a" updFix true = (sNoUser, []) ∧
    addGroup sNoUser "g" none "gid" 0 true = (sNoUser, []) ∧
    updateGroup sNoUser "gid" gUpdFix true = (sNoUser, []) ∧
    deleteGroup sNoUser "gid" 0 true = (sNoUser, []) ∧
    toggleGroupExpansion sNoUser "gid" true = (sNoUser, []) := by
  have h := C5_no_user_no_op sNoUser rfl
  exact ⟨h.1 _ _ _, h.2.1 _ _ _ _, h.2.2.1 _ _ _, h.2.2.2.1 _ _ _,
    h.2.2.2.2.1 _ _ _ _ _, h.2.2.2.2.2.1 _ _ _, h.2.2.2.2.2.2.1 _ _ _,
    h.2.2.2.2.2.2.2 _ _⟩

theorem C6_editWebsite_witness :
    (editWebsite sFix "a" updFix true).1.websites
      = sFix.websites.set 0 (applyWebsiteUpdates wsDev updFix) ∧
    (mkWebsiteUpdatePayload updFix).visits = none ∧
    ((editWebsite sFix "a" updFix false).1.websites)[0]? = some wsDev := by
  have h := C6_editWebsite sFix "user1" "a" updFix 0 wsDev rfl (by decide)
  exact ⟨h.1, h.2.1, h.2.2.2⟩

theorem C7_views_witness :
    (getMostVisitedWebsites sFix 1).length ≤ 1 ∧ (getRecentWebsites sFix 1).length ≤ 1 := by
  have h := C7_views sFix "user1" rfl
  exact ⟨h.1 1, h.2.2.2.1 1⟩

theorem C9_soft_deleted_hidden_witness :
    ∃ w, w ∈ sFix.websites ∧ ¬ w.deleted = some true ∧ "dev" ∈ w.tags :=
  (C9_soft_deleted_hidden sFix "dev").2 "dev" (by decide)

theorem C10_getTags_distinct_witness : (getTags sFix).Nodup :=
  ((C10_getTags_distinct sFix).2 "user1" rfl).1
